import Mathlib

/-!
Shallow embedding of the cooperative event loop of the HAL-common library:
the refined generation (`lr::event::Entry`, `lr::event::StaticStorage`,
`lr::event::BasicLoop` from `src/event/Entry.hpp`, `src/event/Data.hpp`,
`src/event/Loop.hpp`) and the legacy generation (`lr::Event` from
`src/Event.cpp`).

Machine integers are modelled as `Nat` with explicit reductions modulo
`2 ^ 16` / `2 ^ 32` where the C++ performs fixed-width arithmetic; signed
reinterpretation casts become explicit `Nat → Int` conversions.  Function
pointers are modelled by their identity (a `Nat`); what a callback does when
invoked is modelled by an environment mapping a callback identity to the list
of loop-API calls it performs (`Command`).  The millisecond tick source
(`Timer::tickMilliseconds`) is an external collaborator and is passed in as an
explicit `time` argument.
-/

namespace HalEvent

/-- Reinterpret the low 16 bits of a natural number as a signed 16-bit value
(the `static_cast<int16_t>` of the source). -/
def asInt16 (n : Nat) : Int :=
  if n % 2 ^ 16 < 2 ^ 15 then ((n % 2 ^ 16 : Nat) : Int)
  else ((n % 2 ^ 16 : Nat) : Int) - 2 ^ 16

/-- Reinterpret the low 32 bits of a natural number as a signed 32-bit value
(the `static_cast<TickDelta>` = `static_cast<int32_t>` of `Duration::deltaTo`,
`src/Duration.hpp:84-86`). -/
def asInt32 (n : Nat) : Int :=
  if n % 2 ^ 32 < 2 ^ 31 then ((n % 2 ^ 32 : Nat) : Int)
  else ((n % 2 ^ 32 : Nat) : Int) - 2 ^ 32

/-- Wrapping 16-bit subtraction `a - b` on `uint16_t` values. -/
def sub16 (a b : Nat) : Nat :=
  (a % 2 ^ 16 + (2 ^ 16 - b % 2 ^ 16)) % 2 ^ 16

/-- Wrapping 32-bit subtraction `a - b` on `uint32_t` values. -/
def sub32 (a b : Nat) : Nat :=
  (a % 2 ^ 32 + (2 ^ 32 - b % 2 ^ 32)) % 2 ^ 32

/-- The `EnumFlags::isSet` test of `src/Flags.hpp:160-162` on a bitmask. -/
def flagIsSet (flags bit : Nat) : Bool :=
  (flags &&& bit == bit) && (bit != 0 || flags == bit)

/-- Bit for `Entry::Flag::Valid` (`oneBit8(0)`, `src/event/Entry.hpp:39`). -/
def flagValid : Nat := 1

/-- Bit for `Entry::Flag::Immediate` (`oneBit8(1)`, `src/event/Entry.hpp:40`). -/
def flagImmediate : Nat := 2

/-- Bit for `Entry::Flag::OnInterrupt` (`oneBit8(2)`, `src/event/Entry.hpp:41`). -/
def flagOnInterrupt : Nat := 4

/-- Bit for `Entry::Flag::Repeat` (`oneBit8(3)`, `src/event/Entry.hpp:42`). -/
def flagRepeat : Nat := 8

/-- The `union Data` of `src/event/Data.hpp:78-86`, modelled as its 32-bit
object representation on the little-endian targets this firmware library is
built for: `lo` is the low 16-bit half (aliasing `repeated.expireTimeMs`,
`onInterrupt.interruptFlags` and the low half of `delayed.expireTime`), `hi`
is the high 16-bit half (aliasing `repeated.intervalMs` and the high half of
`delayed.expireTime`).  Both halves are kept reduced modulo `2 ^ 16`. -/
structure Data where
  lo : Nat
  hi : Nat
deriving DecidableEq

/-- The constructor `Data(Milliseconds expireTime)` (delayed payload). -/
def Data.ofDelayed (expireTime : Nat) : Data :=
  ⟨expireTime % 2 ^ 32 % 2 ^ 16, expireTime % 2 ^ 32 / 2 ^ 16⟩

/-- The constructor `Data(uint16_t expireTimeMs, uint16_t intervalMs)`
(repeated payload). -/
def Data.ofRepeated (expireTimeMs intervalMs : Nat) : Data :=
  ⟨expireTimeMs % 2 ^ 16, intervalMs % 2 ^ 16⟩

/-- The constructor `Data(InterruptFlags interruptFlags)` (on-interrupt
payload).  Only the low 16-bit half of the union is initialized by the C++
constructor; the remaining bytes are modelled as zero, matching the static
zero-initialized storage the entries are copied into. -/
def Data.ofInterrupt (interruptFlags : Nat) : Data :=
  ⟨interruptFlags % 2 ^ 16, 0⟩

/-- Read of `delayed.expireTime` (a 32-bit tick value). -/
def Data.delayedExpireTime (d : Data) : Nat :=
  d.lo % 2 ^ 16 + 2 ^ 16 * (d.hi % 2 ^ 16)

/-- Read of `repeated.expireTimeMs`. -/
def Data.repeatedExpireTimeMs (d : Data) : Nat :=
  d.lo % 2 ^ 16

/-- Read of `repeated.intervalMs`. -/
def Data.repeatedIntervalMs (d : Data) : Nat :=
  d.hi % 2 ^ 16

/-- Read of `onInterrupt.interruptFlags` (aliases `repeated.expireTimeMs`). -/
def Data.onInterruptMask (d : Data) : Nat :=
  d.lo % 2 ^ 16

/-- The class `lr::event::Entry` (`src/event/Entry.hpp:32-176`): a callback
identity, the union payload, and the `uint8_t` flag bitmask. -/
structure Entry where
  call : Nat
  data : Data
  flags : Nat
deriving DecidableEq

/-- The method `Entry::canMerge` (`src/event/Entry.hpp:106-109`): same call
and identical flag bitmask; the payload is ignored. -/
def Entry.canMerge (e other : Entry) : Bool :=
  e.call == other.call && e.flags == other.flags

/-- The method `Entry::isReady` (`src/event/Entry.hpp:118-135`). -/
def Entry.isReady (e : Entry) (currentTime interruptFlags : Nat) : Bool :=
  if !flagIsSet e.flags flagValid then
    false
  else if flagIsSet e.flags flagImmediate then
    true
  else if flagIsSet e.flags flagOnInterrupt then
    (e.data.onInterruptMask &&& interruptFlags) != 0
  else if flagIsSet e.flags flagRepeat then
    asInt16 (sub16 e.data.repeatedExpireTimeMs currentTime) ≤ 0
  else
    asInt32 (sub32 e.data.delayedExpireTime currentTime) ≤ 0

/-- The method `Entry::isRemovedAfterCall` (`src/event/Entry.hpp:140-143`). -/
def Entry.isRemovedAfterCall (e : Entry) : Bool :=
  !flagIsSet e.flags flagRepeat

/-- The method `Entry::updateExpireTime` (`src/event/Entry.hpp:148-154`): for
every non-Immediate entry it writes `repeated.expireTimeMs` (the low union
half) to `currentTime16 + repeated.intervalMs`, leaving `intervalMs` (the
high union half) unchanged. -/
def Entry.updateExpireTime (e : Entry) (currentTime : Nat) : Entry :=
  if flagIsSet e.flags flagImmediate then
    e
  else
    { e with data :=
        { e.data with
            lo := (currentTime % 2 ^ 16 + e.data.repeatedIntervalMs) % 2 ^ 16 } }

/-- The method `Entry::isValid` (`src/event/Entry.hpp:159-162`). -/
def Entry.isValid (e : Entry) : Bool :=
  flagIsSet e.flags flagValid

/-- The default-constructed invalid `Entry` (`src/event/Entry.hpp:54-55`),
also used as the shared sentinel of `StaticStorage::entryAt`. -/
def invalidEntry : Entry :=
  ⟨0, ⟨0, 0⟩, 0⟩

/-- The entry built by `BasicLoop::addImmediateEvent`
(`src/event/Loop.hpp:275-278`). -/
def immediateEntry (fn : Nat) : Entry :=
  ⟨fn, Data.ofDelayed 0, flagValid ||| flagImmediate⟩

/-- The entry built by `BasicLoop::addPollEvent` (`src/event/Loop.hpp:280-283`). -/
def pollEntry (fn : Nat) : Entry :=
  ⟨fn, Data.ofDelayed 0, flagValid ||| flagImmediate ||| flagRepeat⟩

/-- The entry built by `BasicLoop::addDelayedEvent`
(`src/event/Loop.hpp:285-289`) when the tick counter reads `time`: the
deadline is the wrapping 32-bit sum `time + delay`. -/
def delayedEntry (fn time delay : Nat) : Entry :=
  ⟨fn, Data.ofDelayed ((time % 2 ^ 32 + delay % 2 ^ 32) % 2 ^ 32), flagValid⟩

/-- The entry built by `BasicLoop::addRepeatedEvent`
(`src/event/Loop.hpp:291-296`) when the tick counter reads `time`. -/
def repeatedEntry (fn time delay : Nat) : Entry :=
  ⟨fn, Data.ofRepeated (time % 2 ^ 16 + delay % 2 ^ 16) (delay % 2 ^ 16),
    flagValid ||| flagRepeat⟩

/-- The entry built by `BasicLoop::addInterruptEvent`
(`src/event/Loop.hpp:298-304`). -/
def interruptEntry (fn mask : Nat) (rep : Bool) : Entry :=
  ⟨fn, Data.ofInterrupt mask,
    flagValid ||| flagOnInterrupt ||| (if rep then flagRepeat else 0)⟩

/-- The legacy event type enum `Event::Type` (`src/Event.hpp:36-42`). -/
inductive EventType where
  | invalid
  | immediate
  | poll
  | delayed
  | onInterrupt
deriving DecidableEq

/-- The legacy class `lr::Event` (`src/Event.hpp:31-110`): a callback
identity, a 32-bit data word, and the type tag. -/
structure Event where
  call : Nat
  data : Nat
  type : EventType
deriving DecidableEq

/-- The legacy method `Event::isReady` (`src/Event.cpp:44-55`): for a Delayed
event the readiness test is the sign bit of the wrapping 32-bit difference
`data - currentTime`. -/
def Event.isReady (ev : Event) (currentTime interruptFlags : Nat) : Bool :=
  if ev.type == EventType.immediate || ev.type == EventType.poll then
    true
  else if ev.type == EventType.delayed then
    (sub32 ev.data currentTime) &&& 2 ^ 31 != 0
  else if ev.type == EventType.onInterrupt then
    (ev.data % 2 ^ 32 &&& interruptFlags) != 0
  else
    false

example : (immediateEntry 3).isReady 17 0 = true := by decide

example : (delayedEntry 0 100 5).isReady 104 0 = false := by decide

example : (delayedEntry 0 100 5).isReady 105 0 = true := by decide

example : (delayedEntry 0 100 5).isReady 106 0 = true := by decide

example : (repeatedEntry 0 10 4).isReady 13 0 = false := by decide

example : (repeatedEntry 0 10 4).isReady 14 0 = true := by decide

example : (interruptEntry 0 3 false).isReady 0 4 = false := by decide

example : (interruptEntry 0 3 false).isReady 0 6 = true := by decide

example : Event.isReady ⟨0, 5, .delayed⟩ 4 0 = false := by decide

example : Event.isReady ⟨0, 5, .delayed⟩ 5 0 = false := by decide

example : Event.isReady ⟨0, 5, .delayed⟩ 6 0 = true := by decide

example : (delayedEntry 0 0 5).isReady 5 0 = true := by decide

/-- The class `lr::event::StaticStorage` (`src/event/Loop.hpp:126-199`): a
fixed-capacity ordered collection of entries.  The list holds the live slots
`[0, count)`; `capacity` is the template parameter `entryListSize`.  The
unused `_index` member of the source is omitted. -/
structure Storage where
  capacity : Nat
  entryList : List Entry
deriving DecidableEq

/-- The method `StaticStorage::getCount` (`src/event/Loop.hpp:160-162`). -/
def Storage.getCount (s : Storage) : Nat :=
  s.entryList.length

/-- The method `StaticStorage::entryAt` (`src/event/Loop.hpp:169-175`):
out-of-range positions yield the shared invalid sentinel entry. -/
def Storage.entryAt (s : Storage) (position : Nat) : Entry :=
  if s.entryList.length ≤ position then invalidEntry
  else s.entryList.getD position invalidEntry

/-- The method `StaticStorage::addEntry` (`src/event/Loop.hpp:139-154`):
silently dropped when full; with `merge`, dropped when an existing entry is
`canMerge`-equal; otherwise appended at `count`. -/
def Storage.addEntry (s : Storage) (entry : Entry) (merge : Bool) : Storage :=
  if s.entryList.length == s.capacity then
    s
  else if merge && decide (0 < s.entryList.length)
      && s.entryList.any (fun e => entry.canMerge e) then
    s
  else
    { s with entryList := s.entryList ++ [entry] }

/-- The method `StaticStorage::removeEntryAt` (`src/event/Loop.hpp:181-193`):
no-op out of range; otherwise shift all later entries down by one slot. -/
def Storage.removeEntryAt (s : Storage) (position : Nat) : Storage :=
  if s.entryList.length ≤ position then s
  else { s with entryList := s.entryList.eraseIdx position }

/-- The in-place `event.updateExpireTime(currentTime)` performed through the
reference returned by `entryAt` in `BasicLoop::processEvents`
(`src/event/Loop.hpp:259`).  An out-of-range position touches only the shared
sentinel, leaving the store unchanged. -/
def Storage.updateExpireAt (s : Storage) (position time : Nat) : Storage :=
  if s.entryList.length ≤ position then s
  else
    let e := s.entryList.getD position invalidEntry
    { s with entryList := s.entryList.set position (e.updateExpireTime time) }

/-- The state owned by `lr::event::BasicLoop` (`src/event/Loop.hpp:320-323`):
the pending 16-bit interrupt-flag word and the storage.  The `_exitRequested`
flag drives only the `loopInfinite` wrapper and is omitted. -/
structure LoopState where
  interruptFlags : Nat
  storage : Storage
deriving DecidableEq

/-- The method `BasicLoop::signalInterrupt` (`src/event/Loop.hpp:306-308`):
bitwise-OR the 16-bit mask into the pending flag word. -/
def LoopState.signalInterrupt (st : LoopState) (mask : Nat) : LoopState :=
  { st with interruptFlags := st.interruptFlags ||| mask % 2 ^ 16 }

/-- Registration of an entry into the loop storage (the common tail of all
`BasicLoop::add*Event` methods). -/
def LoopState.addEntry (st : LoopState) (entry : Entry) (merge : Bool) : LoopState :=
  { st with storage := st.storage.addEntry entry merge }

/-- The method `BasicLoop::addImmediateEvent` (`src/event/Loop.hpp:275-278`). -/
def LoopState.addImmediateEvent (st : LoopState) (fn : Nat) (merge : Bool) : LoopState :=
  st.addEntry (immediateEntry fn) merge

/-- The method `BasicLoop::addPollEvent` (`src/event/Loop.hpp:280-283`). -/
def LoopState.addPollEvent (st : LoopState) (fn : Nat) : LoopState :=
  st.addEntry (pollEntry fn) false

/-- The method `BasicLoop::addDelayedEvent` (`src/event/Loop.hpp:285-289`)
invoked while the tick counter reads `time`. -/
def LoopState.addDelayedEvent (st : LoopState) (fn time delay : Nat) (merge : Bool) :
    LoopState :=
  st.addEntry (delayedEntry fn time delay) merge

/-- The method `BasicLoop::addRepeatedEvent` (`src/event/Loop.hpp:291-296`)
invoked while the tick counter reads `time`. -/
def LoopState.addRepeatedEvent (st : LoopState) (fn time delay : Nat) : LoopState :=
  st.addEntry (repeatedEntry fn time delay) false

/-- The method `BasicLoop::addInterruptEvent` (`src/event/Loop.hpp:298-304`). -/
def LoopState.addInterruptEvent (st : LoopState) (fn mask : Nat) (rep : Bool) : LoopState :=
  st.addEntry (interruptEntry fn mask rep) false

/-- One call a callback body may perform on the loop while it is invoked
(the registration / signalling API of `lr::event::Loop`). -/
inductive Command where
  | addImmediate (fn : Nat) (merge : Bool)
  | addPoll (fn : Nat)
  | addDelayed (fn : Nat) (delay : Nat) (merge : Bool)
  | addRepeated (fn : Nat) (delay : Nat)
  | addInterrupt (fn : Nat) (mask : Nat) (rep : Bool)
  | signal (mask : Nat)
deriving DecidableEq

/-- Effect of one callback-issued API call on the loop state, at tick `time`. -/
def runCommand (time : Nat) (st : LoopState) : Command → LoopState
  | .addImmediate fn merge => st.addImmediateEvent fn merge
  | .addPoll fn => st.addPollEvent fn
  | .addDelayed fn delay merge => st.addDelayedEvent fn time delay merge
  | .addRepeated fn delay => st.addRepeatedEvent fn time delay
  | .addInterrupt fn mask rep => st.addInterruptEvent fn mask rep
  | .signal mask => st.signalInterrupt mask

/-- Effect of a callback body: its API calls applied in order. -/
def runCommands (time : Nat) (st : LoopState) (cs : List Command) : LoopState :=
  cs.foldl (runCommand time) st

/-- A callback environment: the API calls each callback identity performs
when invoked. -/
def Env : Type := Nat → List Command

/-- The environment in which no callback touches the loop. -/
def noCommands : Env := fun _ => []

/-- The scan loop of `BasicLoop::processEvents` (`src/event/Loop.hpp:241-268`).
The C++ loop variables `position` and `count` are represented by `position`
and `remaining = count - position`; the loop condition `position < count` is
`remaining > 0`, a removal (`--count`) keeps `position` and decrements
`remaining`, and advancing (`++position`) also decrements `remaining`.  The
entry is removed or re-armed before its captured callback runs. -/
def processLoopR (env : Env) (time flags : Nat) :
    Nat → LoopState → List Nat → Nat → LoopState × List Nat
  | 0, st, trace, _ => (st, trace)
  | remaining + 1, st, trace, position =>
    let e := st.storage.entryAt position
    if e.isReady time flags then
      if e.isRemovedAfterCall then
        let st1 : LoopState := { st with storage := st.storage.removeEntryAt position }
        let st2 := runCommands time st1 (env e.call)
        processLoopR env time flags remaining st2 (trace ++ [e.call]) position
      else
        let st1 : LoopState := { st with storage := st.storage.updateExpireAt position time }
        let st2 := runCommands time st1 (env e.call)
        processLoopR env time flags remaining st2 (trace ++ [e.call]) (position + 1)
    else
      processLoopR env time flags remaining st trace (position + 1)

/-- The method `BasicLoop::processEvents` (`src/event/Loop.hpp:241-268`) run
while the tick counter reads `time`: snapshot the count, snapshot and clear
the interrupt-flag word (`getAndClearInterruptFlags`,
`src/event/Loop.hpp:313-318`), then scan.  Returns the final loop state and
the ordered list of invoked callbacks. -/
def processEvents (env : Env) (time : Nat) (st : LoopState) : LoopState × List Nat :=
  processLoopR env time st.interruptFlags st.storage.getCount
    { st with interruptFlags := 0 } [] 0

/-- The per-entry outcome of one pass for an entry that is scanned with
snapshot `time` and `flags`: removed when ready and one-shot, re-armed when
ready and repeat-flagged, untouched otherwise. -/
def stepEntry (time flags : Nat) (e : Entry) : Option Entry :=
  if e.isReady time flags then
    if e.isRemovedAfterCall then none
    else some (e.updateExpireTime time)
  else
    some e

/-- Drive the loop with one `processEvents` pass per millisecond tick,
starting at tick `time`, for `n` ticks; collects each pass's tick and
invocation trace. -/
def runPasses (env : Env) (time : Nat) (st : LoopState) :
    Nat → LoopState × List (Nat × List Nat)
  | 0 => (st, [])
  | n + 1 =>
    let p := processEvents env time st
    let q := runPasses env (time + 1) p.1 n
    (q.1, (time, p.2) :: q.2)

/-- A sequence of `signalInterrupt` calls arriving between two passes. -/
def sigAll (st : LoopState) (masks : List Nat) : LoopState :=
  masks.foldl LoopState.signalInterrupt st

example :
    processEvents noCommands 0 ⟨0, ⟨4, [immediateEntry 5, immediateEntry 6]⟩⟩
      = (⟨0, ⟨4, []⟩⟩, [5, 6]) := by decide

example :
    processEvents noCommands 0 ⟨0, ⟨4, [pollEntry 5]⟩⟩
      = (⟨0, ⟨4, [pollEntry 5]⟩⟩, [5]) := by decide

example :
    (processEvents noCommands 7 ⟨2, ⟨4, [interruptEntry 5 2 false, interruptEntry 6 1 false]⟩⟩)
      = (⟨0, ⟨4, [interruptEntry 6 1 false]⟩⟩, [5]) := by decide

example :
    (processEvents noCommands 7 ⟨0, ⟨4, [repeatedEntry 9 3 4]⟩⟩).2 = [9] := by decide

section ListHelpers

variable {α : Type _}

lemma getD_append_cons (pre : List α) (e : α) (t : List α) (d : α) :
    (pre ++ e :: t).getD pre.length d = e := by
  induction pre with
  | nil => rfl
  | cons a l ih =>
    show (l ++ e :: t).getD l.length d = e
    exact ih

lemma eraseIdx_append_cons (pre : List α) (e : α) (t : List α) :
    (pre ++ e :: t).eraseIdx pre.length = pre ++ t := by
  induction pre with
  | nil => rfl
  | cons a l ih =>
    show a :: (l ++ e :: t).eraseIdx l.length = a :: (l ++ t)
    rw [ih]

lemma set_append_cons (pre : List α) (e : α) (t : List α) (x : α) :
    (pre ++ e :: t).set pre.length x = pre ++ x :: t := by
  induction pre with
  | nil => rfl
  | cons a l ih =>
    show a :: (l ++ e :: t).set l.length x = a :: (l ++ x :: t)
    rw [ih]

lemma not_length_le_of_append_cons (pre : List α) (e : α) (t : List α) :
    ¬ (pre ++ e :: t).length ≤ pre.length := by
  simp only [List.length_append, List.length_cons]
  omega

end ListHelpers

lemma Storage.entryAt_of_split (s : Storage) (pre : List Entry) (e : Entry)
    (t : List Entry) (h : s.entryList = pre ++ e :: t) :
    s.entryAt pre.length = e := by
  unfold Storage.entryAt
  rw [h, if_neg (not_length_le_of_append_cons pre e t)]
  exact getD_append_cons pre e t invalidEntry

lemma Storage.removeEntryAt_of_split (s : Storage) (pre : List Entry) (e : Entry)
    (t : List Entry) (h : s.entryList = pre ++ e :: t) :
    s.removeEntryAt pre.length = { s with entryList := pre ++ t } := by
  unfold Storage.removeEntryAt
  rw [h, if_neg (not_length_le_of_append_cons pre e t), eraseIdx_append_cons]

lemma Storage.updateExpireAt_of_split (s : Storage) (pre : List Entry) (e : Entry)
    (t : List Entry) (time : Nat) (h : s.entryList = pre ++ e :: t) :
    s.updateExpireAt pre.length time
      = { s with entryList := pre ++ e.updateExpireTime time :: t } := by
  unfold Storage.updateExpireAt
  rw [h, if_neg (not_length_le_of_append_cons pre e t)]
  rw [getD_append_cons pre e t invalidEntry]
  simp only [set_append_cons]

/-- Registration only ever appends: `addEntry` either drops the entry or
appends it at the end of the list, and never changes the capacity. -/
lemma Storage.addEntry_extends (s : Storage) (e : Entry) (m : Bool) :
    (s.addEntry e m).capacity = s.capacity
      ∧ ∃ r, (s.addEntry e m).entryList = s.entryList ++ r := by
  unfold Storage.addEntry
  split
  · exact ⟨rfl, [], by simp⟩
  · split
    · exact ⟨rfl, [], by simp⟩
    · exact ⟨rfl, [e], rfl⟩

/-- A single callback-issued API call only appends to the entry list. -/
lemma runCommand_extends (time : Nat) (st : LoopState) (c : Command) :
    ∃ r, (runCommand time st c).storage.entryList = st.storage.entryList ++ r := by
  cases c <;>
    first
      | (simp only [runCommand, LoopState.addImmediateEvent, LoopState.addPollEvent,
           LoopState.addDelayedEvent, LoopState.addRepeatedEvent,
           LoopState.addInterruptEvent, LoopState.addEntry];
         exact (Storage.addEntry_extends _ _ _).2)
      | exact ⟨[], by simp [runCommand, LoopState.signalInterrupt]⟩

/-- A whole callback body only appends to the entry list. -/
lemma runCommands_extends (time : Nat) (cs : List Command) (st : LoopState) :
    ∃ r, (runCommands time st cs).storage.entryList = st.storage.entryList ++ r := by
  induction cs generalizing st with
  | nil => exact ⟨[], by simp [runCommands]⟩
  | cons c cs ih =>
    obtain ⟨r1, h1⟩ := runCommand_extends time st c
    obtain ⟨r2, h2⟩ := ih (runCommand time st c)
    exact ⟨r1 ++ r2, by simp [runCommands] at h2 ⊢; simp [h2, h1]⟩

/-- Central characterization of the scan of `processEvents`, for an arbitrary
callback environment: when the entry list splits as `pre ++ base ++ rest`
with the cursor at `pre.length` and `base.length` iterations left, the scan
invokes exactly the ready entries of `base`, in list order.  Entries appended
by callbacks land beyond the snapshot bound and never influence the trace. -/
lemma processLoopR_trace (env : Env) (time flags : Nat) :
    ∀ (base pre rest : List Entry) (st : LoopState) (trace : List Nat),
      st.storage.entryList = pre ++ base ++ rest →
      (processLoopR env time flags base.length st trace pre.length).2
        = trace ++ (base.filter (fun e => e.isReady time flags)).map Entry.call := by
  intro base
  induction base with
  | nil =>
    intro pre rest st trace h
    simp [processLoopR]
  | cons e base ih =>
    intro pre rest st trace h
    have hsplit : st.storage.entryList = pre ++ e :: (base ++ rest) := by
      simpa using h
    have hAt := Storage.entryAt_of_split st.storage pre e (base ++ rest) hsplit
    show (processLoopR env time flags (base.length + 1) st trace pre.length).2 = _
    rw [processLoopR]
    simp only [hAt]
    by_cases hr : e.isReady time flags
    · rw [if_pos hr]
      by_cases hrem : e.isRemovedAfterCall
      · rw [if_pos hrem]
        have hrm := Storage.removeEntryAt_of_split st.storage pre e (base ++ rest) hsplit
        obtain ⟨r, hr2⟩ := runCommands_extends time (env e.call)
          { st with storage := st.storage.removeEntryAt pre.length }
        have h2 := ih pre (rest ++ r)
          (runCommands time { st with storage := st.storage.removeEntryAt pre.length }
            (env e.call))
          (trace ++ [e.call]) (by rw [hr2]; simp only; rw [hrm]; simp)
        rw [h2]
        simp [hr]
      · rw [if_neg hrem]
        have hup := Storage.updateExpireAt_of_split st.storage pre e (base ++ rest) time hsplit
        obtain ⟨r, hr2⟩ := runCommands_extends time (env e.call)
          { st with storage := st.storage.updateExpireAt pre.length time }
        have h2 := ih (pre ++ [e.updateExpireTime time]) (rest ++ r)
          (runCommands time { st with storage := st.storage.updateExpireAt pre.length time }
            (env e.call))
          (trace ++ [e.call]) (by rw [hr2]; simp only; rw [hup]; simp)
        simp only [List.length_append, List.length_cons, List.length_nil,
          Nat.zero_add, Nat.add_zero] at h2
        rw [h2]
        simp [hr]
    · rw [if_neg hr]
      have h2 := ih (pre ++ [e]) rest st trace (by rw [hsplit]; simp)
      simp only [List.length_append, List.length_cons, List.length_nil,
        Nat.zero_add, Nat.add_zero] at h2
      rw [h2]
      simp [hr]

/-- The invocation trace of one `processEvents` pass: exactly the entries of
the initial store that are ready with respect to the snapshotted time and
drained flags, in store order. -/
lemma processEvents_trace (env : Env) (time : Nat) (st : LoopState) :
    (processEvents env time st).2
      = (st.storage.entryList.filter
          (fun e => e.isReady time st.interruptFlags)).map Entry.call := by
  have h := processLoopR_trace env time st.interruptFlags st.storage.entryList [] []
    { st with interruptFlags := 0 } [] (by simp)
  simpa [processEvents, Storage.getCount] using h

/-- Full characterization of the scan when no invoked callback touches the
loop: ready one-shot entries are removed, ready repeat-flagged entries are
re-armed in place, all other entries are untouched, and the trace lists the
ready entries in store order. -/
lemma processLoopR_noCmd (time flags : Nat) :
    ∀ (base pre : List Entry) (st : LoopState) (trace : List Nat),
      st.storage.entryList = pre ++ base →
      processLoopR noCommands time flags base.length st trace pre.length
        = ({ st with storage :=
              { st.storage with
                  entryList := pre ++ base.filterMap (stepEntry time flags) } },
           trace ++ (base.filter (fun e => e.isReady time flags)).map Entry.call) := by
  intro base
  induction base with
  | nil =>
    intro pre st trace h
    obtain ⟨f, cap, l⟩ := st
    simp only [List.append_nil] at h
    simp [processLoopR, h]
  | cons e base ih =>
    intro pre st trace h
    have hAt := Storage.entryAt_of_split st.storage pre e base h
    show processLoopR noCommands time flags (base.length + 1) st trace pre.length = _
    rw [processLoopR]
    simp only [hAt, noCommands, runCommands, List.foldl_nil]
    by_cases hr : e.isReady time flags
    · rw [if_pos hr]
      by_cases hrem : e.isRemovedAfterCall
      · rw [if_pos hrem]
        have hrm := Storage.removeEntryAt_of_split st.storage pre e base h
        have h2 := ih pre { st with storage := st.storage.removeEntryAt pre.length }
          (trace ++ [e.call]) (by simp only; rw [hrm])
        rw [h2]
        simp only [hrm]
        simp [stepEntry, hr, hrem]
      · rw [if_neg hrem]
        have hup := Storage.updateExpireAt_of_split st.storage pre e base time h
        have h2 := ih (pre ++ [e.updateExpireTime time])
          { st with storage := st.storage.updateExpireAt pre.length time }
          (trace ++ [e.call]) (by simp only; rw [hup]; simp)
        simp only [List.length_append, List.length_cons, List.length_nil,
          Nat.zero_add, Nat.add_zero] at h2
        rw [h2]
        simp only [hup]
        simp [stepEntry, hr, hrem]
    · rw [if_neg hr]
      have h2 := ih (pre ++ [e]) st trace (by rw [h]; simp)
      simp only [List.length_append, List.length_cons, List.length_nil,
        Nat.zero_add, Nat.add_zero] at h2
      rw [h2]
      simp [stepEntry, hr]

/-- One `processEvents` pass with callbacks that do not touch the loop:
the interrupt word is drained to zero, the store is updated entrywise by
`stepEntry` against the snapshot, and the trace lists the ready entries. -/
lemma processEvents_noCmd (time : Nat) (st : LoopState) :
    processEvents noCommands time st
      = ({ interruptFlags := 0,
           storage := { capacity := st.storage.capacity,
                        entryList := st.storage.entryList.filterMap
                          (stepEntry time st.interruptFlags) } },
         (st.storage.entryList.filter
           (fun e => e.isReady time st.interruptFlags)).map Entry.call) := by
  have h := processLoopR_noCmd time st.interruptFlags st.storage.entryList []
    { st with interruptFlags := 0 } [] (by simp)
  simpa [processEvents, Storage.getCount] using h

/-- C6: within a single `processEvents` pass, exactly those entries among the
snapshotted store slots that are ready with respect to the pass's snapshotted
time and drained flags are invoked, and their callbacks run in increasing
slot order (registration order modulo earlier removals), for every behaviour
of the invoked callbacks. -/
theorem C6_ready_entries_fire_in_store_order :
    ∀ (env : Env) (time : Nat) (st : LoopState),
      (processEvents env time st).2
        = (st.storage.entryList.filter
            (fun e => e.isReady time st.interruptFlags)).map Entry.call :=
  fun env time st => processEvents_trace env time st

/-- C2: the invocations of a pass are identical to those of a pass in which
no callback registers anything, so an entry added to the store during the
pass is never invoked within that same pass; concretely, a callback (id 5)
that re-registers itself via `addImmediateEvent` during its own invocation
fires exactly once in the first pass and once more in the next pass. -/
theorem C2_added_entries_deferred_to_next_pass :
    (∀ (env : Env) (time : Nat) (st : LoopState),
        (processEvents env time st).2 = (processEvents noCommands time st).2)
    ∧ (processEvents (fun c => if c == 5 then [Command.addImmediate 5 false] else []) 0
        ((⟨0, ⟨4, []⟩⟩ : LoopState).addImmediateEvent 5 false)).2 = [5]
    ∧ (processEvents (fun c => if c == 5 then [Command.addImmediate 5 false] else []) 1
        (processEvents (fun c => if c == 5 then [Command.addImmediate 5 false] else []) 0
          ((⟨0, ⟨4, []⟩⟩ : LoopState).addImmediateEvent 5 false)).1).2 = [5] := by
  refine ⟨fun env time st => ?_, by decide, by decide⟩
  rw [processEvents_trace, processEvents_trace]

/-- C9: a `processEvents` pass performs at most the snapshotted number of
invocations; the scan is bounded by the entry count taken at the start of
the pass, for every behaviour of the invoked callbacks, so entries appended
during the pass never extend it. -/
theorem C9_invocations_bounded_by_snapshot :
    ∀ (env : Env) (time : Nat) (st : LoopState),
      ((processEvents env time st).2).length ≤ st.storage.getCount := by
  intro env time st
  rw [processEvents_trace]
  simpa [Storage.getCount] using List.length_filter_le _ st.storage.entryList

/-- C8: when the store is full (`count = capacity`), `addEntry` leaves the
store completely unchanged for every entry and merge flag, and consequently
every later pass behaves exactly as if the add had never happened (the
dropped entry is never invoked). -/
theorem C8_full_store_add_is_noop :
    ∀ (s : Storage) (e : Entry) (m : Bool), s.getCount = s.capacity →
      s.addEntry e m = s
      ∧ ∀ (env : Env) (time f : Nat),
          processEvents env time ⟨f, s.addEntry e m⟩ = processEvents env time ⟨f, s⟩ := by
  intro s e m h
  have hc : (s.entryList.length == s.capacity) = true := by
    simp only [Storage.getCount] at h
    simpa using h
  have h1 : s.addEntry e m = s := by
    unfold Storage.addEntry
    rw [if_pos hc]
  exact ⟨h1, fun env time f => by rw [h1]⟩

/-- C8 witness: a concrete full store (capacity 1, one immediate entry)
drops a new registration without any change. -/
theorem C8_full_store_add_is_noop_witness :
    (⟨1, [immediateEntry 3]⟩ : Storage).getCount = (⟨1, [immediateEntry 3]⟩ : Storage).capacity
    ∧ ((⟨1, [immediateEntry 3]⟩ : Storage).addEntry (immediateEntry 4) false
          = (⟨1, [immediateEntry 3]⟩ : Storage)
        ∧ ∀ (env : Env) (time f : Nat),
            processEvents env time
                ⟨f, (⟨1, [immediateEntry 3]⟩ : Storage).addEntry (immediateEntry 4) false⟩
              = processEvents env time ⟨f, (⟨1, [immediateEntry 3]⟩ : Storage)⟩) :=
  ⟨by decide,
   C8_full_store_add_is_noop (⟨1, [immediateEntry 3]⟩ : Storage) (immediateEntry 4) false
     (by decide)⟩

/-- C7: on a non-full store, `addEntry` with `merge = true` is a no-op
whenever some stored entry has the same callback and the same flag set
(payloads are ignored), while `addEntry` with `merge = false` appends the
entry, so both copies are retained and the appended copy also fires in a
pass in which it is ready. -/
theorem C7_merge_drops_duplicate_append_otherwise :
    ∀ (s : Storage) (e : Entry), s.getCount < s.capacity →
      ((∃ x ∈ s.entryList, e.canMerge x = true) → s.addEntry e true = s)
      ∧ s.addEntry e false = { s with entryList := s.entryList ++ [e] }
      ∧ ∀ (time flags : Nat), e.isReady time flags = true →
          (processEvents noCommands time ⟨flags, s.addEntry e false⟩).2
            = ((s.entryList.filter (fun x => x.isReady time flags)).map Entry.call)
                ++ [e.call] := by
  intro s e h
  have hne : (s.entryList.length == s.capacity) = false := by
    simp only [Storage.getCount] at h
    simp only [beq_eq_false_iff_ne, ne_eq]
    omega
  have happ : s.addEntry e false = { s with entryList := s.entryList ++ [e] } := by
    unfold Storage.addEntry
    rw [if_neg (by simp [hne])]
    simp
  refine ⟨?_, happ, ?_⟩
  · rintro ⟨x, hx, hm⟩
    have hpos : 0 < s.entryList.length :=
      List.length_pos.mpr (List.ne_nil_of_mem hx)
    have hany : s.entryList.any (fun y => e.canMerge y) = true :=
      List.any_eq_true.mpr ⟨x, hx, hm⟩
    unfold Storage.addEntry
    rw [if_neg (by simp [hne]), if_pos (by simp [hany, hpos])]
  · intro time flags hready
    rw [processEvents_trace]
    simp only [happ]
    simp [List.filter_append, hready]

/-- C7 witness: a concrete non-full store holding an immediate entry for
callback 5; re-registering callback 5 with a different payload and
`merge = true` is dropped, with `merge = false` it is appended and fires. -/
theorem C7_merge_drops_duplicate_append_otherwise_witness :
    (⟨2, [immediateEntry 5]⟩ : Storage).getCount < (⟨2, [immediateEntry 5]⟩ : Storage).capacity
    ∧ (((∃ x ∈ (⟨2, [immediateEntry 5]⟩ : Storage).entryList,
            Entry.canMerge ⟨5, ⟨9, 9⟩, 3⟩ x = true) →
          (⟨2, [immediateEntry 5]⟩ : Storage).addEntry ⟨5, ⟨9, 9⟩, 3⟩ true
            = (⟨2, [immediateEntry 5]⟩ : Storage))
        ∧ (⟨2, [immediateEntry 5]⟩ : Storage).addEntry ⟨5, ⟨9, 9⟩, 3⟩ false
            = { (⟨2, [immediateEntry 5]⟩ : Storage) with
                  entryList := (⟨2, [immediateEntry 5]⟩ : Storage).entryList ++ [⟨5, ⟨9, 9⟩, 3⟩] }
        ∧ ∀ (time flags : Nat), Entry.isReady ⟨5, ⟨9, 9⟩, 3⟩ time flags = true →
            (processEvents noCommands time
                ⟨flags, (⟨2, [immediateEntry 5]⟩ : Storage).addEntry ⟨5, ⟨9, 9⟩, 3⟩ false⟩).2
              = (((⟨2, [immediateEntry 5]⟩ : Storage).entryList.filter
                    (fun x => x.isReady time flags)).map Entry.call) ++ [Entry.call ⟨5, ⟨9, 9⟩, 3⟩]) :=
  ⟨by decide,
   C7_merge_drops_duplicate_append_otherwise (⟨2, [immediateEntry 5]⟩ : Storage)
     ⟨5, ⟨9, 9⟩, 3⟩ (by decide)⟩

/-- C1: the code violates this claim.  A repeat-enabled OnInterrupt entry
(callback 7, mask `InterruptA = 1`) fires in a pass at tick 2, but
`updateExpireTime` then overwrites the union payload — the interrupt mask
aliases `repeated.expireTimeMs` — so the stored mask becomes 2 instead of
the original 1, and the next pass, although `InterruptA` was signalled
again, invokes nothing. -/
theorem C1_repeat_interrupt_mask_clobbered :
    (processEvents noCommands 2
        (((⟨0, ⟨4, []⟩⟩ : LoopState).addInterruptEvent 7 1 true).signalInterrupt 1)).2 = [7]
    ∧ ((processEvents noCommands 2
        (((⟨0, ⟨4, []⟩⟩ : LoopState).addInterruptEvent 7 1 true).signalInterrupt 1)).1.storage.entryList.map
          (fun e => e.data.onInterruptMask)) = [2]
    ∧ (processEvents noCommands 3
        ((processEvents noCommands 2
            (((⟨0, ⟨4, []⟩⟩ : LoopState).addInterruptEvent 7 1 true).signalInterrupt 1)).1.signalInterrupt
          1)).2 = [] := by
  refine ⟨by decide, by decide, by decide⟩

/-- An entry as built by `addInterruptEvent`: valid, OnInterrupt-flagged,
not Immediate (the Repeat bit may or may not be set). -/
def isInterruptKind (e : Entry) : Bool :=
  flagIsSet e.flags flagValid && flagIsSet e.flags flagOnInterrupt
    && !flagIsSet e.flags flagImmediate

lemma sigAll_spec :
    ∀ (masks : List Nat) (st : LoopState),
      (sigAll st masks).interruptFlags
          = masks.foldl (fun a m => a ||| m % 2 ^ 16) st.interruptFlags
        ∧ (sigAll st masks).storage = st.storage := by
  intro masks
  induction masks with
  | nil => intro st; exact ⟨rfl, rfl⟩
  | cons m masks ih =>
    intro st
    have h := ih (st.signalInterrupt m)
    simpa [sigAll, LoopState.signalInterrupt] using h

lemma interruptKind_isReady (e : Entry) (h : isInterruptKind e = true) (t f : Nat) :
    e.isReady t f = (e.data.onInterruptMask &&& f != 0) := by
  simp only [isInterruptKind, Bool.and_eq_true, Bool.not_eq_true'] at h
  obtain ⟨⟨h1, h2⟩, h3⟩ := h
  simp [Entry.isReady, h1, h2, h3]

lemma interruptKind_update (e : Entry) (t : Nat) :
    isInterruptKind (e.updateExpireTime t) = isInterruptKind e := by
  unfold Entry.updateExpireTime
  split
  · rfl
  · rfl

lemma interruptKind_stepEntry (time flags : Nat) (e e2 : Entry)
    (h : isInterruptKind e = true) (hstep : stepEntry time flags e = some e2) :
    isInterruptKind e2 = true := by
  unfold stepEntry at hstep
  split at hstep
  · split at hstep
    · exact absurd hstep (by simp)
    · rw [← Option.some_inj.mp hstep, interruptKind_update]
      exact h
  · rw [← Option.some_inj.mp hstep]
    exact h

/-- C5: with the flag word initially drained and zero, signalling masks
`m1, ..., mk` between two passes makes the next pass evaluate every
OnInterrupt entry against the single OR-accumulated snapshot: exactly the
entries whose mask intersects it are invoked, once each, in store order; the
pass leaves the flag word at zero and removes fired one-shot entries, and a
following pass with no intervening `signalInterrupt` invokes nothing. -/
theorem C5_interrupt_snapshot_or_drain :
    ∀ (st : LoopState) (masks : List Nat) (time time2 : Nat),
      st.interruptFlags = 0 →
      (∀ e ∈ st.storage.entryList, isInterruptKind e = true) →
      (processEvents noCommands time (sigAll st masks)).2
          = (st.storage.entryList.filter
              (fun e => e.data.onInterruptMask
                  &&& (masks.foldl (fun a m => a ||| m % 2 ^ 16) 0) != 0)).map Entry.call
        ∧ (processEvents noCommands time (sigAll st masks)).1.storage.entryList
            = st.storage.entryList.filterMap
                (stepEntry time (masks.foldl (fun a m => a ||| m % 2 ^ 16) 0))
        ∧ (processEvents noCommands time (sigAll st masks)).1.interruptFlags = 0
        ∧ (processEvents noCommands time2
            (processEvents noCommands time (sigAll st masks)).1).2 = [] := by
  intro st masks time time2 h0 hkind
  obtain ⟨hflags, hstor⟩ := sigAll_spec masks st
  rw [h0] at hflags
  have hpass := processEvents_noCmd time (sigAll st masks)
  rw [hflags, hstor] at hpass
  have htr : (processEvents noCommands time (sigAll st masks)).2
      = (st.storage.entryList.filter
          (fun e => e.data.onInterruptMask
              &&& (masks.foldl (fun a m => a ||| m % 2 ^ 16) 0) != 0)).map Entry.call := by
    rw [hpass]
    simp only
    rw [List.filter_congr (fun e he => interruptKind_isReady e (hkind e he) time _)]
  have hlist : (processEvents noCommands time (sigAll st masks)).1.storage.entryList
      = st.storage.entryList.filterMap
          (stepEntry time (masks.foldl (fun a m => a ||| m % 2 ^ 16) 0)) := by
    rw [hpass]
  have hfl0 : (processEvents noCommands time (sigAll st masks)).1.interruptFlags = 0 := by
    rw [hpass]
  refine ⟨htr, hlist, hfl0, ?_⟩
  rw [processEvents_trace, hfl0, hlist]
  have hnone : ∀ e2 ∈ st.storage.entryList.filterMap
      (stepEntry time (masks.foldl (fun a m => a ||| m % 2 ^ 16) 0)),
      e2.isReady time2 0 = false := by
    intro e2 he2
    obtain ⟨e, he, hstep⟩ := List.mem_filterMap.mp he2
    rw [interruptKind_isReady e2 (interruptKind_stepEntry _ _ e e2 (hkind e he) hstep)]
    simp [Nat.and_zero]
  rw [List.filter_eq_nil_iff.mpr (fun e2 he2 => by rw [hnone e2 he2]; simp)]
  simp

/-- C5 witness: two OnInterrupt entries (callback 1 on mask 1, callback 2 on
mask 2, the latter repeat-enabled), with `InterruptA = 1` signalled once
between passes. -/
theorem C5_interrupt_snapshot_or_drain_witness :
    (⟨0, ⟨4, [interruptEntry 1 1 false, interruptEntry 2 2 true]⟩⟩ : LoopState).interruptFlags = 0
    ∧ (∀ e ∈ (⟨0, ⟨4, [interruptEntry 1 1 false, interruptEntry 2 2 true]⟩⟩ : LoopState).storage.entryList,
        isInterruptKind e = true)
    ∧ ((processEvents noCommands 6
          (sigAll (⟨0, ⟨4, [interruptEntry 1 1 false, interruptEntry 2 2 true]⟩⟩ : LoopState) [1])).2
            = ((⟨0, ⟨4, [interruptEntry 1 1 false, interruptEntry 2 2 true]⟩⟩ : LoopState).storage.entryList.filter
                (fun e => e.data.onInterruptMask
                    &&& ([1].foldl (fun a m => a ||| m % 2 ^ 16) 0) != 0)).map Entry.call
        ∧ (processEvents noCommands 6
            (sigAll (⟨0, ⟨4, [interruptEntry 1 1 false, interruptEntry 2 2 true]⟩⟩ : LoopState) [1])).1.storage.entryList
              = (⟨0, ⟨4, [interruptEntry 1 1 false, interruptEntry 2 2 true]⟩⟩ : LoopState).storage.entryList.filterMap
                  (stepEntry 6 ([1].foldl (fun a m => a ||| m % 2 ^ 16) 0))
        ∧ (processEvents noCommands 6
            (sigAll (⟨0, ⟨4, [interruptEntry 1 1 false, interruptEntry 2 2 true]⟩⟩ : LoopState) [1])).1.interruptFlags = 0
        ∧ (processEvents noCommands 7
            (processEvents noCommands 6
              (sigAll (⟨0, ⟨4, [interruptEntry 1 1 false, interruptEntry 2 2 true]⟩⟩ : LoopState) [1])).1).2 = []) :=
  ⟨by decide, by decide,
   C5_interrupt_snapshot_or_drain
     (⟨0, ⟨4, [interruptEntry 1 1 false, interruptEntry 2 2 true]⟩⟩ : LoopState) [1] 6 7
     (by decide) (by decide)⟩

lemma delayedExpireTime_ofDelayed (x : Nat) :
    (Data.ofDelayed x).delayedExpireTime = x % 2 ^ 32 := by
  simp only [Data.ofDelayed, Data.delayedExpireTime]
  omega

lemma sub32_mod_left (a b : Nat) : sub32 (a % 2 ^ 32) b = sub32 a b := by
  unfold sub32
  omega

lemma sub32_lt (a b : Nat) : sub32 a b < 2 ^ 32 := by
  unfold sub32
  omega

lemma and_pow31_eq_true_iff (D : Nat) (h : D < 2 ^ 32) :
    ((D &&& 2 ^ 31 != 0) = true) ↔ 2 ^ 31 ≤ D := by
  rw [Nat.and_two_pow]
  rcases hb : D.testBit 31 with _ | _
  · rw [Nat.testBit_to_div_mod] at hb
    simp at hb ⊢
    omega
  · rw [Nat.testBit_to_div_mod] at hb
    simp at hb ⊢
    omega

lemma isReady_delayed_flags (c : Nat) (d : Data) (t f : Nat) :
    Entry.isReady ⟨c, d, 1⟩ t f = decide (asInt32 (sub32 d.delayedExpireTime t) ≤ 0) := by
  simp [Entry.isReady, flagIsSet, flagValid, flagImmediate, flagOnInterrupt, flagRepeat]

lemma legacy_isReady_delayed (c dl t f : Nat) :
    Event.isReady ⟨c, dl, EventType.delayed⟩ t f = (sub32 dl t &&& 2 ^ 31 != 0) :=
  rfl

/-- C10 counterexample: at the boundary where the current time equals the
deadline (both 5), the legacy `Event::isReady` returns `false` (the signed
difference is 0, the sign bit is clear) while the new `Entry::isReady`
returns `true` (`deltaTo <= 0`), so the two generations do not return the
same boolean. -/
theorem C10_boundary_counterexample :
    ¬ (Event.isReady ⟨0, 5, EventType.delayed⟩ 5 0
        = Entry.isReady ⟨0, Data.ofDelayed 5, flagValid⟩ 5 0) := by
  decide

/-- C10 amended: the legacy `Event::isReady` (Delayed) and the new
`Entry::isReady` (valid Delayed-kind entry) return the same boolean for
every 32-bit current time and deadline that are not congruent modulo
`2 ^ 32`; at the boundary `now ≡ deadline` the legacy test (`delta < 0`)
returns `false` while the new test (`delta <= 0`) returns `true`. -/
theorem C10_legacy_new_agree_off_boundary :
    ∀ (c1 c2 dl t f1 f2 : Nat),
      (dl % 2 ^ 32 ≠ t % 2 ^ 32 →
        Event.isReady ⟨c1, dl, EventType.delayed⟩ t f1
          = Entry.isReady ⟨c2, Data.ofDelayed dl, flagValid⟩ t f2)
      ∧ (dl % 2 ^ 32 = t % 2 ^ 32 →
        Event.isReady ⟨c1, dl, EventType.delayed⟩ t f1 = false
          ∧ Entry.isReady ⟨c2, Data.ofDelayed dl, flagValid⟩ t f2 = true) := by
  intro c1 c2 dl t f1 f2
  have hN : Entry.isReady ⟨c2, Data.ofDelayed dl, flagValid⟩ t f2
      = decide (asInt32 (sub32 dl t) ≤ 0) := by
    rw [show flagValid = 1 from rfl, isReady_delayed_flags, delayedExpireTime_ofDelayed,
      sub32_mod_left]
  have hz : sub32 dl t = 0 ↔ dl % 2 ^ 32 = t % 2 ^ 32 := by
    unfold sub32
    omega
  constructor
  · intro hne
    rw [legacy_isReady_delayed, hN, Bool.eq_iff_iff,
      and_pow31_eq_true_iff _ (sub32_lt dl t), decide_eq_true_iff]
    unfold asInt32
    rw [Nat.mod_eq_of_lt (sub32_lt dl t)]
    have hne2 : sub32 dl t ≠ 0 := fun h => hne (hz.mp h)
    have hlt := sub32_lt dl t
    split
    · omega
    · omega
  · intro heq
    rw [legacy_isReady_delayed, hN]
    have h0 : sub32 dl t = 0 := hz.mpr heq
    rw [h0]
    exact ⟨by decide, by simp [asInt32]⟩

/-- C10 witness for the amended claim: deadline 6 and current time 5 are not
congruent, and both generations agree there; deadline 5 at current time 5 is
the boundary where they differ as described. -/
theorem C10_legacy_new_agree_off_boundary_witness :
    ((6 % 2 ^ 32 ≠ 5 % 2 ^ 32)
      ∧ Event.isReady ⟨0, 6, EventType.delayed⟩ 5 0
          = Entry.isReady ⟨0, Data.ofDelayed 6, flagValid⟩ 5 0)
    ∧ ((5 % 2 ^ 32 = 5 % 2 ^ 32)
      ∧ Event.isReady ⟨0, 5, EventType.delayed⟩ 5 0 = false
      ∧ Entry.isReady ⟨0, Data.ofDelayed 5, flagValid⟩ 5 0 = true) :=
  ⟨⟨by decide, (C10_legacy_new_agree_off_boundary 0 0 6 5 0 0).1 (by decide)⟩,
   ⟨rfl, (C10_legacy_new_agree_off_boundary 0 0 5 5 0 0).2 rfl⟩⟩

/-- C3: a Delayed entry scheduled at 32-bit time `t` with delay
`0 < d < 2 ^ 31` (deadline `(t + d) mod 2 ^ 32`, which may overflow the
32-bit tick range) is ready at `now` exactly when the elapsed time
`(now - t) mod 2 ^ 32` has reached `d`, provided the elapsed time is within
the signed range, because readiness is the signed 32-bit difference
`deltaTo(deadline) <= 0` rather than a raw unsigned comparison. -/
theorem C3_delayed_wraparound_readiness :
    ∀ (fn t d now flags : Nat),
      t < 2 ^ 32 → now < 2 ^ 32 → 0 < d → d < 2 ^ 31 →
      (now + 2 ^ 32 - t) % 2 ^ 32 < 2 ^ 31 →
      ((delayedEntry fn t d).isReady now flags = true
        ↔ d ≤ (now + 2 ^ 32 - t) % 2 ^ 32) := by
  intro fn t d now flags ht hnow hd1 hd2 he
  show Entry.isReady ⟨fn, Data.ofDelayed ((t % 2 ^ 32 + d % 2 ^ 32) % 2 ^ 32), 1⟩
      now flags = true ↔ _
  rw [isReady_delayed_flags, decide_eq_true_iff, delayedExpireTime_ofDelayed,
    sub32_mod_left, sub32_mod_left]
  have hlt := sub32_lt (t % 2 ^ 32 + d % 2 ^ 32) now
  unfold asInt32
  rw [Nat.mod_eq_of_lt hlt]
  unfold sub32 at *
  split
  · omega
  · omega

/-- C3 witness: schedule time `2 ^ 32 - 5`, delay 10, so the deadline
overflows to 5; at current time 7 the elapsed time is 12 and the entry is
ready. -/
theorem C3_delayed_wraparound_readiness_witness :
    4294967291 < 2 ^ 32 ∧ 7 < 2 ^ 32 ∧ 0 < 10 ∧ 10 < 2 ^ 31
    ∧ (7 + 2 ^ 32 - 4294967291) % 2 ^ 32 < 2 ^ 31
    ∧ ((delayedEntry 0 4294967291 10).isReady 7 0 = true
        ↔ 10 ≤ (7 + 2 ^ 32 - 4294967291) % 2 ^ 32) :=
  ⟨by decide, by decide, by decide, by decide, by decide,
   C3_delayed_wraparound_readiness 0 4294967291 10 7 0 (by decide) (by decide)
     (by decide) (by decide) (by decide)⟩

lemma flagIsSet_rep_entry :
    flagIsSet 9 flagValid = true ∧ flagIsSet 9 flagImmediate = false
      ∧ flagIsSet 9 flagOnInterrupt = false ∧ flagIsSet 9 flagRepeat = true := by
  decide

lemma isReady_rep_flags (c : Nat) (d : Data) (t f : Nat) :
    Entry.isReady ⟨c, d, 9⟩ t f = decide (asInt16 (sub16 d.repeatedExpireTimeMs t) ≤ 0) := by
  simp [Entry.isReady, flagIsSet_rep_entry.1, flagIsSet_rep_entry.2.1,
    flagIsSet_rep_entry.2.2.1, flagIsSet_rep_entry.2.2.2]

lemma updateExpire_rep (c : Nat) (d : Data) (t : Nat) :
    Entry.updateExpireTime ⟨c, d, 9⟩ t
      = ⟨c, ⟨(t % 2 ^ 16 + d.repeatedIntervalMs) % 2 ^ 16, d.hi⟩, 9⟩ := by
  simp [Entry.updateExpireTime, flagIsSet_rep_entry.2.1]

lemma rep_not_removed (c : Nat) (d : Data) :
    Entry.isRemovedAfterCall ⟨c, d, 9⟩ = false := by
  simp [Entry.isRemovedAfterCall, flagIsSet_rep_entry.2.2.2]

lemma rep_ready_at (c E I u f : Nat) (hE : E % 2 ^ 16 = u % 2 ^ 16) :
    Entry.isReady ⟨c, ⟨E, I⟩, 9⟩ u f = true := by
  rw [isReady_rep_flags, decide_eq_true_iff]
  show asInt16 (sub16 (E % 2 ^ 16) u) ≤ 0
  unfold sub16 asInt16
  split
  · omega
  · omega

lemma rep_not_ready (c E I u j f : Nat) (hj0 : 0 < j) (hj : j < 2 ^ 15)
    (hE : E % 2 ^ 16 = (u + j) % 2 ^ 16) :
    Entry.isReady ⟨c, ⟨E, I⟩, 9⟩ u f = false := by
  rw [isReady_rep_flags, decide_eq_false_iff_not]
  show ¬ asInt16 (sub16 (E % 2 ^ 16) u) ≤ 0
  unfold sub16 asInt16
  split
  · omega
  · omega

lemma pass_rep_fire (cap c E I u fl : Nat)
    (h : Entry.isReady ⟨c, ⟨E, I⟩, 9⟩ u fl = true) :
    processEvents noCommands u ⟨fl, ⟨cap, [⟨c, ⟨E, I⟩, 9⟩]⟩⟩
      = (⟨0, ⟨cap, [⟨c, ⟨(u % 2 ^ 16 + I % 2 ^ 16) % 2 ^ 16, I⟩, 9⟩]⟩⟩, [c]) := by
  rw [processEvents_noCmd]
  simp [stepEntry, h, rep_not_removed, updateExpire_rep, Data.repeatedIntervalMs]

lemma pass_rep_skip (cap c E I u fl : Nat)
    (h : Entry.isReady ⟨c, ⟨E, I⟩, 9⟩ u fl = false) :
    processEvents noCommands u ⟨fl, ⟨cap, [⟨c, ⟨E, I⟩, 9⟩]⟩⟩
      = (⟨0, ⟨cap, [⟨c, ⟨E, I⟩, 9⟩]⟩⟩, []) := by
  rw [processEvents_noCmd]
  simp [stepEntry, h]

lemma runPasses_succ (env : Env) (u : Nat) (st : LoopState) (n : Nat) :
    runPasses env u st (n + 1)
      = ((runPasses env (u + 1) (processEvents env u st).1 n).1,
         (u, (processEvents env u st).2)
           :: (runPasses env (u + 1) (processEvents env u st).1 n).2) := by
  simp [runPasses]

lemma runPasses_add (env : Env) :
    ∀ (a u : Nat) (st : LoopState) (b : Nat),
      runPasses env u st (a + b)
        = ((runPasses env (u + a) (runPasses env u st a).1 b).1,
           (runPasses env u st a).2 ++ (runPasses env (u + a) (runPasses env u st a).1 b).2) := by
  intro a
  induction a with
  | zero =>
    intro u st b
    simp [runPasses]
  | succ n ih =>
    intro u st b
    have e1 : n + 1 + b = (n + b) + 1 := by omega
    have e2 : u + 1 + n = u + (n + 1) := by omega
    rw [e1]
    simp only [runPasses]
    rw [ih (u + 1) (processEvents env u st).1 b, e2]
    simp

/-- The trace of one repeat cycle driven pass-per-tick: `I - 1` silent ticks
starting at `u`, then a firing of callback `c` at tick `u + (I - 1)`. -/
def cycleTrace (c u I : Nat) : List (Nat × List Nat) :=
  (List.range (I - 1)).map (fun i => (u + i, ([] : List Nat))) ++ [(u + (I - 1), [c])]

/-- The trace of `N` consecutive repeat cycles starting at tick `u`. -/
def cyclesTrace (c u I : Nat) : Nat → List (Nat × List Nat)
  | 0 => []
  | N + 1 => cycleTrace c u I ++ cyclesTrace c (u + I) I N

lemma run_to_deadline (cap c I : Nat) :
    ∀ (j u E : Nat), j < 2 ^ 15 → E < 2 ^ 16 → E = (u + j) % 2 ^ 16 →
      runPasses noCommands u ⟨0, ⟨cap, [⟨c, ⟨E, I⟩, 9⟩]⟩⟩ (j + 1)
        = (⟨0, ⟨cap, [⟨c, ⟨(E + I) % 2 ^ 16, I⟩, 9⟩]⟩⟩,
           (List.range j).map (fun i => (u + i, ([] : List Nat))) ++ [(u + j, [c])]) := by
  intro j
  induction j with
  | zero =>
    intro u E hj hE16 hE
    have hready : Entry.isReady ⟨c, ⟨E, I⟩, 9⟩ u 0 = true :=
      rep_ready_at c E I u 0 (by omega)
    have hfire := pass_rep_fire cap c E I u 0 hready
    have hlo : (u % 2 ^ 16 + I % 2 ^ 16) % 2 ^ 16 = (E + I) % 2 ^ 16 := by omega
    simp only [runPasses, hfire, hlo]
    simp
  | succ j ih =>
    intro u E hj hE16 hE
    have hskip := pass_rep_skip cap c E I u 0
      (rep_not_ready c E I u (j + 1) 0 (by omega) hj (by omega))
    have hnext := ih (u + 1) E (by omega) hE16 (by omega)
    show runPasses noCommands u ⟨0, ⟨cap, [⟨c, ⟨E, I⟩, 9⟩]⟩⟩ ((j + 1) + 1) = _
    rw [runPasses_succ]
    simp only [hskip, hnext]
    have hlist : (List.range (j + 1)).map (fun i => (u + i, ([] : List Nat)))
        = (u, ([] : List Nat)) :: (List.range j).map (fun i => (u + 1 + i, ([] : List Nat))) := by
      rw [List.range_succ_eq_map, List.map_cons, List.map_map]
      refine congrArg₂ List.cons (by simp) ?_
      apply List.map_congr_left
      intro i hi
      simp only [Function.comp]
      refine congrArg₂ Prod.mk ?_ rfl
      omega
    have e3 : u + (j + 1) = u + 1 + j := by omega
    rw [hlist, e3, List.cons_append]

lemma run_cycles (cap c I : Nat) (hI0 : 0 < I) (hI : I < 2 ^ 15) :
    ∀ (N u E : Nat), E < 2 ^ 16 → E = (u + (I - 1)) % 2 ^ 16 →
      runPasses noCommands u ⟨0, ⟨cap, [⟨c, ⟨E, I⟩, 9⟩]⟩⟩ (N * I)
        = (⟨0, ⟨cap, [⟨c, ⟨(E + N * I) % 2 ^ 16, I⟩, 9⟩]⟩⟩, cyclesTrace c u I N) := by
  intro N
  induction N with
  | zero =>
    intro u E hE16 hE
    simp [runPasses, cyclesTrace]
    omega
  | succ N ih =>
    intro u E hE16 hE
    have emul : (N + 1) * I = I + N * I := by ring
    rw [emul, runPasses_add]
    have hcyc : runPasses noCommands u ⟨0, ⟨cap, [⟨c, ⟨E, I⟩, 9⟩]⟩⟩ I
        = (⟨0, ⟨cap, [⟨c, ⟨(E + I) % 2 ^ 16, I⟩, 9⟩]⟩⟩, cycleTrace c u I) := by
      have hstep := run_to_deadline cap c I (I - 1) u E (by omega) hE16 (by omega)
      have hn : I - 1 + 1 = I := by omega
      rw [hn] at hstep
      rw [hstep]
      rfl
    rw [hcyc]
    have hnext := ih (u + I) ((E + I) % 2 ^ 16) (by omega) (by omega)
    simp only [hnext]
    have hlo2 : ((E + I) % 2 ^ 16 + N * I) % 2 ^ 16 = (E + (I + N * I)) % 2 ^ 16 := by
      omega
    simp [cyclesTrace, hlo2]
    omega

/-- C4: a Repeated entry registered by `addRepeatedEvent` at tick `s` with
interval `0 < I < 2 ^ 15`, driven by one `processEvents` pass per tick from
tick `s + 1`, fires exactly at ticks `s + I, s + 2I, ..., s + N*I` (each
firing at the tick congruent to the entry's current nominal deadline mod
`2 ^ 16`), and each re-arm performed at scheduling time sets the next
deadline to exactly the previous nominal deadline plus `I`, so after `N`
firings the stored deadline is `(s + (N+1)*I) mod 2 ^ 16` — no drift
accumulates. -/
theorem C4_repeated_rearm_no_drift :
    ∀ (cap fn s I N : Nat), 0 < I → I < 2 ^ 15 →
      runPasses noCommands (s + 1) ⟨0, ⟨cap, [repeatedEntry fn s I]⟩⟩ (N * I)
        = (⟨0, ⟨cap, [⟨fn, ⟨(s + (N + 1) * I) % 2 ^ 16, I⟩,
              flagValid ||| flagRepeat⟩]⟩⟩,
           cyclesTrace fn (s + 1) I N) := by
  intro cap fn s I N hI0 hI
  have hfl : flagValid ||| flagRepeat = 9 := by decide
  have hform : repeatedEntry fn s I = ⟨fn, ⟨(s + I) % 2 ^ 16, I⟩, 9⟩ := by
    unfold repeatedEntry Data.ofRepeated
    simp only [Entry.mk.injEq, Data.mk.injEq, hfl, and_true, true_and, eq_self_iff_true]
    refine ⟨?_, ?_⟩ <;> omega
  rw [hform, hfl]
  have h := run_cycles cap fn I hI0 hI N (s + 1) ((s + I) % 2 ^ 16) (by omega) (by omega)
  rw [h]
  have hlo : ((s + I) % 2 ^ 16 + N * I) % 2 ^ 16 = (s + (N + 1) * I) % 2 ^ 16 := by
    have hm : (N + 1) * I = I + N * I := by ring
    rw [hm]
    omega
  rw [hlo]

/-- C4 witness: interval 2, armed at tick 0, two firings: the loop fires at
ticks 2 and 4 and the stored deadline ends at 6. -/
theorem C4_repeated_rearm_no_drift_witness :
    0 < 2 ∧ 2 < 2 ^ 15
    ∧ runPasses noCommands (0 + 1) ⟨0, ⟨4, [repeatedEntry 3 0 2]⟩⟩ (2 * 2)
        = (⟨0, ⟨4, [⟨3, ⟨(0 + (2 + 1) * 2) % 2 ^ 16, 2⟩, flagValid ||| flagRepeat⟩]⟩⟩,
           cyclesTrace 3 (0 + 1) 2 2) :=
  ⟨by decide, by decide, C4_repeated_rearm_no_drift 4 3 0 2 2 (by decide) (by decide)⟩

end HalEvent
